import Mathlib

/-!
Verification of the data-transformation core of the fidelity-account-overview
dashboard (src/app.py): the `clean_data` cleaner, the `filter_data` filter and
the account-level groupby-sum aggregation, embedded shallowly over a tabular
dataset model.

A dataframe is a list of column headers together with rows of cells; a cell is
either missing (`na`, pandas NaN), a string (as read from the CSV), or a
rational number (modelling the floats produced by the cleaning coercion).
-/

inductive Cell
  | na
  | str (s : String)
  | num (q : ℚ)
deriving DecidableEq

structure DataFrame where
  cols : List String
  rows : List (List Cell)
deriving DecidableEq

deriving instance DecidableEq for Except

/-- Whether a cell is a missing value (pandas NaN). -/
def Cell.isNa : Cell → Bool
  | Cell.na => true
  | _ => false

/-- The string payload of a cell, when it is a string. -/
def Cell.asStr : Cell → Option String
  | Cell.str s => some s
  | _ => none

/-- Header normalization of app.py line 41:
`str.lower()` then `" "` and `"/"` each replaced by `"_"`.
Lower-casing does not affect space or slash, so the three passes act
independently on each character. -/
def normalizeHeader (s : String) : String :=
  String.mk (s.data.map (fun c =>
    if c = Char.ofNat 32 ∨ c = Char.ofNat 47 then Char.ofNat 95 else c.toLower))

/-- `pandas.Index.get_loc` / attribute column access: index of the first
column with the given name, `none` when absent. -/
def getLocAux (name : String) : List String → Option Nat
  | [] => none
  | c :: cs => if c = name then some 0 else (getLocAux name cs).map (fun n => n + 1)

/-- Column lookup that is fatal when the column is missing, as pandas
`get_loc` / attribute access raises KeyError / AttributeError. -/
def getLoc (df : DataFrame) (name : String) : Except String Nat :=
  match getLocAux name df.cols with
  | some i => Except.ok i
  | none => Except.error ("KeyError: " ++ name)

/-- app.py line 41: rename every header with `normalizeHeader`. -/
def renameHeaders (df : DataFrame) : DataFrame :=
  DataFrame.mk (df.cols.map normalizeHeader) df.rows

/-- `fillna("unknown")` on a single cell. -/
def fillCell : Cell → Cell
  | Cell.na => Cell.str "unknown"
  | c => c

/-- Replace the cell at position `ti` of a row by its `fillna` image. -/
def setTypeRow : Nat → List Cell → List Cell
  | _, [] => []
  | 0, c :: cs => fillCell c :: cs
  | n + 1, c :: cs => c :: setTypeRow n cs

/-- app.py line 43: `df.type = df.type.fillna("unknown")`, where `ti` is the
position of the `type` column. -/
def fillTypeCol (df : DataFrame) (ti : Nat) : DataFrame :=
  DataFrame.mk df.cols (df.rows.map (setTypeRow ti))

/-- app.py line 44: `df.dropna()` — drop every row containing a missing value. -/
def dropnaDf (df : DataFrame) : DataFrame :=
  DataFrame.mk df.cols (df.rows.filter (fun r => r.all (fun c => !c.isNa)))

/-- `str.replace("$", "").str.replace("%", "")`: remove every dollar and
percent character. -/
def stripSymbols (s : String) : String :=
  String.mk (s.data.filter (fun c => decide (c ≠ Char.ofNat 36 ∧ c ≠ Char.ofNat 37)))

/-- Numeric value of a digit list (most significant first). -/
def digitsVal (cs : List Char) : Nat :=
  cs.foldl (fun n c => 10 * n + (c.toNat - 48)) 0

/-- Unsigned decimal literal: digits with at most one dot and at least one
digit overall, as accepted by Python `float` on this input family; yields the
concatenated digit value together with its power-of-ten denominator. -/
def parseUnsigned (cs : List Char) : Option (Nat × Nat) :=
  let intPart := cs.takeWhile Char.isDigit
  let rest := cs.dropWhile Char.isDigit
  match rest with
  | [] => if intPart.isEmpty then none else some (digitsVal intPart, 1)
  | c :: frac =>
    if c = Char.ofNat 46 ∧ frac.all Char.isDigit ∧ 0 < intPart.length + frac.length then
      some (digitsVal (intPart ++ frac), 10 ^ frac.length)
    else none

/-- Python `float(s)` on the decimal literals this application feeds it:
an optional sign followed by an unsigned decimal literal; anything else
(commas, letters, empty string) raises ValueError, modelled as `none`. -/
def parseFloat (s : String) : Option ℚ :=
  match s.data with
  | [] => none
  | c :: rest =>
    if c = Char.ofNat 45 then
      (parseUnsigned rest).map (fun nd => mkRat (-(nd.1 : Int)) nd.2)
    else if c = Char.ofNat 43 then
      (parseUnsigned rest).map (fun nd => mkRat (nd.1 : Int) nd.2)
    else (parseUnsigned (c :: rest)).map (fun nd => mkRat (nd.1 : Int) nd.2)

/-- app.py line 50 on one cell of the price range: strip `$` and `%` and
coerce to float. On a string cell an unparseable remainder is a fatal
ValueError. The pandas `.str` accessor maps a non-string element to NaN and
`astype(float)` keeps NaN, so `na` and numeric cells become NaN. -/
def transformCell : Cell → Except String Cell
  | Cell.str s =>
    match parseFloat (stripSymbols s) with
    | some v => Except.ok (Cell.num v)
    | none => Except.error ("ValueError: could not convert string to float: " ++ s)
  | Cell.na => Except.ok Cell.na
  | Cell.num _ => Except.ok Cell.na

/-- Transform the cells of a row whose positions lie in `[p, cb]`; `j` is the
position of the first cell of the suffix being processed. -/
def transformRow (p cb : Nat) : Nat → List Cell → Except String (List Cell)
  | _, [] => Except.ok []
  | j, c :: cs =>
    match (if p ≤ j ∧ j ≤ cb then transformCell c else Except.ok c) with
    | Except.error e => Except.error e
    | Except.ok c1 =>
      match transformRow p cb (j + 1) cs with
      | Except.error e => Except.error e
      | Except.ok cs1 => Except.ok (c1 :: cs1)

/-- Monadic map over `Except`, failing on the first error. -/
def mapExc (f : α → Except String β) : List α → Except String (List β)
  | [] => Except.ok []
  | a :: as =>
    match f a with
    | Except.error e => Except.error e
    | Except.ok b =>
      match mapExc f as with
      | Except.error e => Except.error e
      | Except.ok bs => Except.ok (b :: bs)

/-- app.py lines 46-50: apply the `$`/`%` strip and float coercion to every
column from `last_price` (position `p`) through `cost_basis_per_share`
(position `cb`), in every row. -/
def transformRange (df : DataFrame) (p cb : Nat) : Except String DataFrame :=
  match mapExc (transformRow p cb 0) df.rows with
  | Except.error e => Except.error e
  | Except.ok rows => Except.ok (DataFrame.mk df.cols rows)

/-- app.py lines 52-56: the selected header order — the slice
`cols[q : cb + 1]` first, then `cols[0 : q]`, then `cols[cb + 1 :]`. -/
def selectedNames (cols : List String) (q cb : Nat) : List String :=
  (cols.drop q).take (cb + 1 - q) ++ cols.take q ++ cols.drop (cb + 1)

/-- Cell of row `r` under the column named `name` (selection by name, as
`df[[...]]` does); NaN when the name is absent. -/
def lookupCell (cols : List String) (r : List Cell) (name : String) : Cell :=
  match getLocAux name cols with
  | some i => r.getD i Cell.na
  | none => Cell.na

/-- app.py line 56: reorder the columns by name selection. -/
def reorderCols (df : DataFrame) (q cb : Nat) : DataFrame :=
  let names := selectedNames df.cols q cb
  DataFrame.mk names (df.rows.map (fun r => names.map (lookupCell df.cols r)))

/-- app.py `clean_data` (lines 26-57): snake-case the headers, fill the
missing `type` entries with "unknown", drop rows with remaining missing
values, strip `$`/`%` and coerce the `last_price ... cost_basis_per_share`
range to floats, and reorder the columns. Column accesses by a missing name
and unparseable numeric text are fatal. -/
def clean_data (df : DataFrame) : Except String DataFrame :=
  match getLoc (renameHeaders df) "type" with
  | Except.error e => Except.error e
  | Except.ok ti =>
    match getLoc (dropnaDf (fillTypeCol (renameHeaders df) ti)) "last_price" with
    | Except.error e => Except.error e
    | Except.ok p =>
      match getLoc (dropnaDf (fillTypeCol (renameHeaders df) ti)) "cost_basis_per_share" with
      | Except.error e => Except.error e
      | Except.ok cb =>
        match transformRange (dropnaDf (fillTypeCol (renameHeaders df) ti)) p cb with
        | Except.error e => Except.error e
        | Except.ok df3 =>
          match getLoc df3 "quantity" with
          | Except.error e => Except.error e
          | Except.ok q => Except.ok (reorderCols df3 q cb)

/-- `Series.isin(selections)` on one cell: membership of the string value in
the selection list; NaN and numeric cells match no string selection. -/
def cellIsin (c : Cell) (selections : List String) : Bool :=
  match c with
  | Cell.str s => selections.contains s
  | _ => false

/-- The row predicate of app.py lines 76-78:
`df.account_name.isin(account_selections) & df.symbol.isin(symbol_selections)`. -/
def keepRow (ai si : Nat) (accounts symbols : List String) (r : List Cell) : Bool :=
  cellIsin (r.getD ai Cell.na) accounts && cellIsin (r.getD si Cell.na) symbols

/-- app.py `filter_data` (lines 61-80): keep exactly the rows whose
account name is in `accounts` and whose symbol is in `symbols`. -/
def filter_data (df : DataFrame) (accounts symbols : List String) : Except String DataFrame :=
  match getLoc df "account_name" with
  | Except.error e => Except.error e
  | Except.ok ai =>
    match getLoc df "symbol" with
    | Except.error e => Except.error e
    | Except.ok si =>
      Except.ok (DataFrame.mk df.cols (df.rows.filter (keepRow ai si accounts symbols)))

/-- All cells of column `i`, top to bottom. -/
def colCells (df : DataFrame) (i : Nat) : List Cell :=
  df.rows.map (fun r => r.getD i Cell.na)

/-- First-occurrence deduplication (pandas `Series.unique` order). -/
def uniqueAux [DecidableEq α] (seen : List α) : List α → List α
  | [] => []
  | a :: as => if a ∈ seen then uniqueAux seen as else a :: uniqueAux (a :: seen) as

/-- `list(df.<col>.unique())` for a string column: the distinct string values
in order of first appearance. -/
def uniqueStrs (df : DataFrame) (i : Nat) : List String :=
  uniqueAux [] ((colCells df i).filterMap Cell.asStr)

/-- Ordered insertion for the sort of group keys. -/
def insertLe (le : α → α → Bool) (a : α) : List α → List α
  | [] => [a]
  | b :: bs => if le a b then a :: b :: bs else b :: insertLe le a bs

/-- Insertion sort with a boolean comparison. -/
def sortLe (le : α → α → Bool) (l : List α) : List α :=
  l.foldr (insertLe le) []

/-- Comparison on group-key cells: string keys sort lexicographically
(the only kind the grouping column holds). -/
def cellLe : Cell → Cell → Bool
  | Cell.str a, Cell.str b => decide (a ≤ b)
  | _, _ => true

/-- The group keys of `groupby("account_name")`: the distinct non-NaN cells
of the grouping column, sorted (pandas groupby default `sort=True` and
NaN keys dropped). -/
def groupKeys (df : DataFrame) (ai : Nat) : List Cell :=
  sortLe cellLe (uniqueAux [] ((colCells df ai).filter (fun c => !c.isNa)))

/-- Rational addition written in cross-multiplication form; `qadd_eq_add`
identifies it with `+` (this form evaluates by `decide`, which `Rat.add`
does not). -/
def qadd (a b : ℚ) : ℚ :=
  mkRat (a.num * b.den + b.num * a.den) (a.den * b.den)

/-- Elementwise addition as pandas group summation sees it: numbers add,
strings concatenate, NaN is skipped (`skipna`). -/
def cellAdd : Cell → Cell → Cell
  | Cell.na, c => c
  | c, Cell.na => c
  | Cell.num a, Cell.num b => Cell.num (qadd a b)
  | Cell.str a, Cell.str b => Cell.str (a ++ b)
  | _, _ => Cell.na

/-- Sum of the cells of one column within one group. -/
def cellSum (cs : List Cell) : Cell :=
  cs.foldl cellAdd Cell.na

/-- app.py line 170: `df.groupby("account_name", as_index=False).sum()` —
one row per distinct account key (sorted), the key column first, every other
column summed within the group. -/
def groupby_sum (df : DataFrame) : Except String DataFrame :=
  match getLoc df "account_name" with
  | Except.error e => Except.error e
  | Except.ok ai =>
    let others := (List.range df.cols.length).filter (fun j => decide (j ≠ ai))
    Except.ok (DataFrame.mk
      ("account_name" :: others.map (fun j => df.cols.getD j ""))
      ((groupKeys df ai).map (fun k =>
        let grp := df.rows.filter (fun r => decide (r.getD ai Cell.na = k))
        k :: others.map (fun j => cellSum (grp.map (fun r => r.getD j Cell.na))))))

/-- Cell of the `i`-th row of a dataframe under the column named `name`. -/
def colVal (df : DataFrame) (i : Nat) (name : String) : Cell :=
  lookupCell df.cols (df.rows.getD i []) name

/-! ### Concrete dataframes used by the witnesses -/

/-- A small raw Fidelity-style dataframe: headers as exported, one fully
populated row, one row missing only its Type, one row missing a value in
another column. -/
def dfW : DataFrame :=
  DataFrame.mk
    ["Account Name", "Symbol", "Quantity", "Last Price", "Current Value",
      "Cost Basis Per Share", "Type"]
    [ [Cell.str "Acct1", Cell.str "AAPL", Cell.str "10", Cell.str "$150.5",
        Cell.str "$1505.0", Cell.str "$100.0", Cell.str "Cash"],
      [Cell.str "Acct1", Cell.str "MSFT", Cell.str "2", Cell.str "12.5%",
        Cell.str "25.0", Cell.str "10.0", Cell.na],
      [Cell.str "Acct2", Cell.str "GOOG", Cell.str "1", Cell.str "99.0",
        Cell.na, Cell.str "50.0", Cell.str "Cash"] ]

/-- `dfW` without its partially-missing third row. -/
def dfW1 : DataFrame :=
  DataFrame.mk dfW.cols (dfW.rows.take 2)

/-- The cleaned output shared by `dfW` and `dfW1`. -/
def cleanW : DataFrame :=
  DataFrame.mk
    ["quantity", "last_price", "current_value", "cost_basis_per_share",
      "account_name", "symbol", "type"]
    [ [Cell.str "10", Cell.num (mkRat 301 2), Cell.num 1505, Cell.num 100,
        Cell.str "Acct1", Cell.str "AAPL", Cell.str "Cash"],
      [Cell.str "2", Cell.num (mkRat 25 2), Cell.num 25, Cell.num 10,
        Cell.str "Acct1", Cell.str "MSFT", Cell.str "unknown"] ]

/-- Like `dfW1` but with an unparseable price string. -/
def dfBad : DataFrame :=
  DataFrame.mk dfW.cols
    [ [Cell.str "Acct1", Cell.str "AAPL", Cell.str "10", Cell.str "n/a",
        Cell.str "$1505.0", Cell.str "$100.0", Cell.str "Cash"] ]

/-- A raw dataframe lacking a Quantity column. -/
def dfM : DataFrame :=
  DataFrame.mk ["Account Name", "Type", "Last Price", "Cost Basis Per Share"]
    [ [Cell.str "Acct1", Cell.str "Cash", Cell.str "1.0", Cell.str "2.0"] ]

/-- Two holdings of account "A" with current values 100 and 50. -/
def dfG : DataFrame :=
  DataFrame.mk ["account_name", "current_value"]
    [ [Cell.str "A", Cell.num 100], [Cell.str "A", Cell.num 50] ]

/-- The aggregate of `dfG`: one summary row with the summed current value. -/
def outG : DataFrame :=
  DataFrame.mk ["account_name", "current_value"] [[Cell.str "A", Cell.num 150]]

/-! ### Basic lemmas about the embedding -/

lemma qadd_eq_add (a b : ℚ) : qadd a b = a + b := by
  rw [Rat.add_def]
  unfold qadd mkRat
  rw [dif_neg (Nat.mul_ne_zero a.den_nz b.den_nz)]

lemma renameHeaders_cols (df : DataFrame) :
    (renameHeaders df).cols = df.cols.map normalizeHeader := rfl

lemma fillTypeCol_cols (df : DataFrame) (ti : Nat) : (fillTypeCol df ti).cols = df.cols := rfl

lemma dropnaDf_cols (df : DataFrame) : (dropnaDf df).cols = df.cols := rfl

lemma getLoc_ok_iff (df : DataFrame) (name : String) (i : Nat) :
    getLoc df name = Except.ok i ↔ getLocAux name df.cols = some i := by
  unfold getLoc
  cases h : getLocAux name df.cols <;> simp

lemma getLoc_error_of_none (df : DataFrame) (name : String)
    (h : getLocAux name df.cols = none) :
    getLoc df name = Except.error ("KeyError: " ++ name) := by
  unfold getLoc
  rw [h]

lemma getLocAux_eq_none_iff (name : String) (l : List String) :
    getLocAux name l = none ↔ name ∉ l := by
  induction l with
  | nil => simp [getLocAux]
  | cons c cs ih =>
    by_cases hc : c = name
    · subst hc
      simp [getLocAux]
    · simp [getLocAux, hc, ih, Option.map_eq_none]
      intro h
      exact fun he => hc he.symm

lemma getLocAux_some_lt {name : String} {l : List String} {i : Nat}
    (h : getLocAux name l = some i) : i < l.length := by
  induction l generalizing i with
  | nil => simp [getLocAux] at h
  | cons c cs ih =>
    by_cases hc : c = name
    · subst hc
      simp [getLocAux] at h
      simp only [List.length_cons]
      omega
    · simp [getLocAux, hc] at h
      rcases h with ⟨j, hj, rfl⟩
      have := ih hj
      simp only [List.length_cons]
      omega

lemma getLocAux_some_getD {name : String} {l : List String} {i : Nat}
    (h : getLocAux name l = some i) : l.getD i "" = name := by
  induction l generalizing i with
  | nil => simp [getLocAux] at h
  | cons c cs ih =>
    by_cases hc : c = name
    · subst hc
      simp [getLocAux] at h
      subst h
      rfl
    · simp [getLocAux, hc] at h
      rcases h with ⟨j, hj, rfl⟩
      simpa using ih hj

lemma getD_mem {α : Type} {l : List α} {i : Nat} {d : α}
    (h : i < l.length) : l.getD i d ∈ l := by
  induction l generalizing i with
  | nil => simp at h
  | cons a as ih =>
    cases i with
    | zero => simp
    | succ n =>
      simp only [List.length_cons] at h
      have hn : n < as.length := by omega
      have hred : (a :: as).getD (n + 1) d = as.getD n d := rfl
      rw [hred]
      exact List.mem_cons_of_mem a (ih hn)

lemma getD_of_map {α β : Type} (f : α → β) {l : List α} {i : Nat} (d : β) (d' : α)
    (h : i < l.length) : (l.map f).getD i d = f (l.getD i d') := by
  induction l generalizing i with
  | nil => simp at h
  | cons a as ih =>
    cases i with
    | zero => rfl
    | succ n =>
      simp only [List.length_cons] at h
      exact ih (by omega)

lemma getD_eq_default_of_le {α : Type} {l : List α} {i : Nat} (d : α)
    (h : l.length ≤ i) : l.getD i d = d := by
  induction l generalizing i with
  | nil => rfl
  | cons a as ih =>
    cases i with
    | zero => simp at h
    | succ n =>
      simp only [List.length_cons] at h
      have hred : (a :: as).getD (n + 1) d = as.getD n d := rfl
      rw [hred]
      exact ih (by omega)

lemma lt_length_of_getD_ne {α : Type} {l : List α} {i : Nat} {d : α}
    (h : l.getD i d ≠ d) : i < l.length := by
  by_contra hge
  push_neg at hge
  exact h (getD_eq_default_of_le d hge)

lemma getLocAux_getD_of_nodup {l : List String} {j : Nat}
    (hnd : l.Nodup) (hj : j < l.length) : getLocAux (l.getD j "") l = some j := by
  induction l generalizing j with
  | nil => simp at hj
  | cons c cs ih =>
    cases j with
    | zero => simp [getLocAux]
    | succ n =>
      simp only [List.length_cons] at hj
      have hn : n < cs.length := by omega
      have hne : c ≠ cs.getD n "" := by
        intro he
        exact (List.nodup_cons.mp hnd).1 (he ▸ getD_mem hn)
      have : (c :: cs).getD (n + 1) "" = cs.getD n "" := rfl
      rw [this]
      simp only [getLocAux]
      rw [if_neg hne, ih (List.nodup_cons.mp hnd).2 hn]
      rfl

lemma getLocAux_some_of_mem {name : String} {l : List String}
    (h : name ∈ l) : ∃ i, getLocAux name l = some i := by
  cases hg : getLocAux name l with
  | none => exact absurd ((getLocAux_eq_none_iff name l).mp hg) (by simpa using h)
  | some i => exact ⟨i, rfl⟩

lemma setTypeRow_length (ti : Nat) (r : List Cell) :
    (setTypeRow ti r).length = r.length := by
  induction r generalizing ti with
  | nil => cases ti <;> rfl
  | cons c cs ih =>
    cases ti with
    | zero => rfl
    | succ n => simpa [setTypeRow] using ih n

lemma setTypeRow_getD_eq {ti : Nat} {r : List Cell} (h : ti < r.length) :
    (setTypeRow ti r).getD ti Cell.na = fillCell (r.getD ti Cell.na) := by
  induction r generalizing ti with
  | nil => simp at h
  | cons c cs ih =>
    cases ti with
    | zero => rfl
    | succ n =>
      simp only [List.length_cons] at h
      have hred : (setTypeRow (n + 1) (c :: cs)).getD (n + 1) Cell.na
          = (setTypeRow n cs).getD n Cell.na := rfl
      rw [hred]
      exact ih (by omega)

lemma setTypeRow_getD_ne {ti j : Nat} (r : List Cell) (h : j ≠ ti) :
    (setTypeRow ti r).getD j Cell.na = r.getD j Cell.na := by
  induction r generalizing ti j with
  | nil => cases ti <;> rfl
  | cons c cs ih =>
    cases ti with
    | zero =>
      cases j with
      | zero => exact absurd rfl h
      | succ m => rfl
    | succ n =>
      cases j with
      | zero => rfl
      | succ m =>
        have hred : (setTypeRow (n + 1) (c :: cs)).getD (m + 1) Cell.na
            = (setTypeRow n cs).getD m Cell.na := rfl
        rw [hred]
        exact ih (fun he => h (by omega))

lemma fillCell_eq_ite (c : Cell) :
    fillCell c = (if c.isNa then Cell.str "unknown" else c) := by
  cases c <;> rfl

lemma mapExc_ok_length {f : α → Except String β} {l : List α} {bs : List β}
    (h : mapExc f l = Except.ok bs) : bs.length = l.length := by
  induction l generalizing bs with
  | nil =>
    simp only [mapExc] at h
    cases h
    rfl
  | cons a as ih =>
    simp only [mapExc] at h
    cases hf : f a with
    | error e => rw [hf] at h; cases h
    | ok b =>
      rw [hf] at h
      cases hm : mapExc f as with
      | error e => rw [hm] at h; cases h
      | ok bs0 =>
        rw [hm] at h
        cases h
        simpa using ih hm

lemma mapExc_ok_getD {f : List Cell → Except String (List Cell)} {l bs : List (List Cell)}
    (h : mapExc f l = Except.ok bs) :
    ∀ i, i < l.length → f (l.getD i []) = Except.ok (bs.getD i []) := by
  induction l generalizing bs with
  | nil => intro i hi; simp at hi
  | cons a as ih =>
    simp only [mapExc] at h
    cases hf : f a with
    | error e => rw [hf] at h; cases h
    | ok b =>
      rw [hf] at h
      cases hm : mapExc f as with
      | error e => rw [hm] at h; cases h
      | ok bs0 =>
        rw [hm] at h
        cases h
        intro i hi
        cases i with
        | zero => exact hf
        | succ n =>
          simp only [List.length_cons] at hi
          exact ih hm n (by omega)

lemma mapExc_error_of_getD {f : List Cell → Except String (List Cell)} {l : List (List Cell)}
    {i : Nat} {e : String}
    (hi : i < l.length) (he : f (l.getD i []) = Except.error e) :
    ∃ e2, mapExc f l = Except.error e2 := by
  induction l generalizing i with
  | nil => simp at hi
  | cons a as ih =>
    cases hf : f a with
    | error e0 => exact ⟨e0, by simp only [mapExc, hf]⟩
    | ok b =>
      cases i with
      | zero => rw [show (a :: as).getD 0 [] = a from rfl, hf] at he; cases he
      | succ n =>
        simp only [List.length_cons] at hi
        obtain ⟨e2, hm⟩ := ih (show n < as.length by omega)
          (by rwa [show (a :: as).getD (n + 1) [] = as.getD n [] from rfl] at he)
        exact ⟨e2, by simp only [mapExc, hf, hm]⟩

lemma transformRow_ok_length {p cb j : Nat} {r r1 : List Cell}
    (h : transformRow p cb j r = Except.ok r1) : r1.length = r.length := by
  induction r generalizing j r1 with
  | nil =>
    simp only [transformRow] at h
    cases h
    rfl
  | cons c cs ih =>
    simp only [transformRow] at h
    cases hc : (if p ≤ j ∧ j ≤ cb then transformCell c else Except.ok c) with
    | error e => rw [hc] at h; cases h
    | ok c1 =>
      rw [hc] at h
      cases hr : transformRow p cb (j + 1) cs with
      | error e => rw [hr] at h; cases h
      | ok cs1 =>
        rw [hr] at h
        cases h
        simpa using ih hr

lemma transformRow_ok_getD {p cb j : Nat} {r r1 : List Cell}
    (h : transformRow p cb j r = Except.ok r1) :
    ∀ k, k < r.length →
      (if p ≤ j + k ∧ j + k ≤ cb then transformCell (r.getD k Cell.na)
        else Except.ok (r.getD k Cell.na)) = Except.ok (r1.getD k Cell.na) := by
  induction r generalizing j r1 with
  | nil => intro k hk; simp at hk
  | cons c cs ih =>
    simp only [transformRow] at h
    cases hc : (if p ≤ j ∧ j ≤ cb then transformCell c else Except.ok c) with
    | error e => rw [hc] at h; cases h
    | ok c1 =>
      rw [hc] at h
      cases hr : transformRow p cb (j + 1) cs with
      | error e => rw [hr] at h; cases h
      | ok cs1 =>
        rw [hr] at h
        cases h
        intro k hk
        cases k with
        | zero => simpa using hc
        | succ n =>
          simp only [List.length_cons] at hk
          have := ih hr n (by omega)
          rw [show (c :: cs).getD (n + 1) Cell.na = cs.getD n Cell.na from rfl,
            show (c1 :: cs1).getD (n + 1) Cell.na = cs1.getD n Cell.na from rfl]
          rw [show j + (n + 1) = j + 1 + n by omega]
          exact this

lemma transformRow_error_of_cell {p cb j k : Nat} {r : List Cell} {e : String}
    (hk : k < r.length) (hp : p ≤ j + k) (hcb : j + k ≤ cb)
    (he : transformCell (r.getD k Cell.na) = Except.error e) :
    ∃ e2, transformRow p cb j r = Except.error e2 := by
  induction r generalizing j k with
  | nil => simp at hk
  | cons c cs ih =>
    cases hc : (if p ≤ j ∧ j ≤ cb then transformCell c else Except.ok c) with
    | error e0 => exact ⟨e0, by simp only [transformRow, hc]⟩
    | ok c1 =>
      cases k with
      | zero =>
        rw [show (c :: cs).getD 0 Cell.na = c from rfl] at he
        rw [if_pos ⟨by omega, by omega⟩, he] at hc
        cases hc
      | succ n =>
        simp only [List.length_cons] at hk
        obtain ⟨e2, hr⟩ := ih (show n < cs.length by omega) (show p ≤ j + 1 + n by omega)
          (show j + 1 + n ≤ cb by omega)
          (by rwa [show (c :: cs).getD (n + 1) Cell.na = cs.getD n Cell.na from rfl] at he)
        exact ⟨e2, by simp only [transformRow, hc, hr]⟩

lemma transformRange_ok_inv {df : DataFrame} {p cb : Nat} {out : DataFrame}
    (h : transformRange df p cb = Except.ok out) :
    ∃ rows1, mapExc (transformRow p cb 0) df.rows = Except.ok rows1 ∧
      out = DataFrame.mk df.cols rows1 := by
  unfold transformRange at h
  cases hm : mapExc (transformRow p cb 0) df.rows with
  | error e => rw [hm] at h; cases h
  | ok rows1 =>
    rw [hm] at h
    cases h
    exact ⟨rows1, rfl, rfl⟩

lemma getLoc_eq_of_cols {df : DataFrame} {cols0 : List String} {name : String} {i : Nat}
    (hc : df.cols = cols0) (h : getLocAux name cols0 = some i) :
    getLoc df name = Except.ok i := by
  rw [getLoc_ok_iff, hc]
  exact h

lemma clean_data_ok_inv {df df' : DataFrame} (h : clean_data df = Except.ok df') :
    ∃ ti p cb q rows1,
      getLocAux "type" (df.cols.map normalizeHeader) = some ti ∧
      getLocAux "last_price" (df.cols.map normalizeHeader) = some p ∧
      getLocAux "cost_basis_per_share" (df.cols.map normalizeHeader) = some cb ∧
      getLocAux "quantity" (df.cols.map normalizeHeader) = some q ∧
      mapExc (transformRow p cb 0)
        ((df.rows.map (setTypeRow ti)).filter (fun r => r.all (fun c => !c.isNa)))
        = Except.ok rows1 ∧
      df' = reorderCols (DataFrame.mk (df.cols.map normalizeHeader) rows1) q cb := by
  unfold clean_data at h
  split at h
  · exact Except.noConfusion h
  · rename_i ti h1
    split at h
    · exact Except.noConfusion h
    · rename_i p h2
      split at h
      · exact Except.noConfusion h
      · rename_i cb h3
        split at h
        · exact Except.noConfusion h
        · rename_i df3 h4
          split at h
          · exact Except.noConfusion h
          · rename_i q h5
            injection h with h6
            obtain ⟨rows1, hmap, hdf3⟩ := transformRange_ok_inv h4
            subst hdf3
            subst h6
            refine ⟨ti, p, cb, q, rows1, ?_, ?_, ?_, ?_, ?_, rfl⟩
            · exact (getLoc_ok_iff _ _ _).mp h1
            · exact (getLoc_ok_iff _ _ _).mp h2
            · exact (getLoc_ok_iff _ _ _).mp h3
            · exact (getLoc_ok_iff _ _ _).mp h5
            · exact hmap

lemma clean_data_error_no_type {df : DataFrame}
    (h : getLocAux "type" (df.cols.map normalizeHeader) = none) :
    ∃ e, clean_data df = Except.error e := by
  have h1 : getLoc (renameHeaders df) "type" = Except.error ("KeyError: " ++ "type") :=
    getLoc_error_of_none _ _ h
  exact ⟨"KeyError: " ++ "type", by simp only [clean_data, h1]⟩

lemma clean_data_error_no_last_price {df : DataFrame} {ti : Nat}
    (hty : getLocAux "type" (df.cols.map normalizeHeader) = some ti)
    (h : getLocAux "last_price" (df.cols.map normalizeHeader) = none) :
    ∃ e, clean_data df = Except.error e := by
  have h1 : getLoc (renameHeaders df) "type" = Except.ok ti := getLoc_eq_of_cols rfl hty
  have h2 : getLoc (dropnaDf (fillTypeCol (renameHeaders df) ti)) "last_price"
      = Except.error ("KeyError: " ++ "last_price") := getLoc_error_of_none _ _ h
  exact ⟨"KeyError: " ++ "last_price", by simp only [clean_data, h1, h2]⟩

lemma clean_data_error_no_cost_basis {df : DataFrame} {ti p : Nat}
    (hty : getLocAux "type" (df.cols.map normalizeHeader) = some ti)
    (hlp : getLocAux "last_price" (df.cols.map normalizeHeader) = some p)
    (h : getLocAux "cost_basis_per_share" (df.cols.map normalizeHeader) = none) :
    ∃ e, clean_data df = Except.error e := by
  have h1 : getLoc (renameHeaders df) "type" = Except.ok ti := getLoc_eq_of_cols rfl hty
  have h2 : getLoc (dropnaDf (fillTypeCol (renameHeaders df) ti)) "last_price"
      = Except.ok p := getLoc_eq_of_cols rfl hlp
  have h3 : getLoc (dropnaDf (fillTypeCol (renameHeaders df) ti)) "cost_basis_per_share"
      = Except.error ("KeyError: " ++ "cost_basis_per_share") := getLoc_error_of_none _ _ h
  exact ⟨"KeyError: " ++ "cost_basis_per_share", by simp only [clean_data, h1, h2, h3]⟩

lemma clean_data_error_transform {df : DataFrame} {ti p cb : Nat} {e : String}
    (hty : getLocAux "type" (df.cols.map normalizeHeader) = some ti)
    (hlp : getLocAux "last_price" (df.cols.map normalizeHeader) = some p)
    (hcb : getLocAux "cost_basis_per_share" (df.cols.map normalizeHeader) = some cb)
    (htr : transformRange (dropnaDf (fillTypeCol (renameHeaders df) ti)) p cb
      = Except.error e) :
    clean_data df = Except.error e := by
  have h1 : getLoc (renameHeaders df) "type" = Except.ok ti := getLoc_eq_of_cols rfl hty
  have h2 : getLoc (dropnaDf (fillTypeCol (renameHeaders df) ti)) "last_price"
      = Except.ok p := getLoc_eq_of_cols rfl hlp
  have h3 : getLoc (dropnaDf (fillTypeCol (renameHeaders df) ti)) "cost_basis_per_share"
      = Except.ok cb := getLoc_eq_of_cols rfl hcb
  simp only [clean_data, h1, h2, h3, htr]

lemma clean_data_error_no_quantity {df : DataFrame} {ti p cb : Nat}
    (hty : getLocAux "type" (df.cols.map normalizeHeader) = some ti)
    (hlp : getLocAux "last_price" (df.cols.map normalizeHeader) = some p)
    (hcb : getLocAux "cost_basis_per_share" (df.cols.map normalizeHeader) = some cb)
    (h : getLocAux "quantity" (df.cols.map normalizeHeader) = none) :
    ∃ e, clean_data df = Except.error e := by
  cases h4 : transformRange (dropnaDf (fillTypeCol (renameHeaders df) ti)) p cb with
  | error e => exact ⟨e, clean_data_error_transform hty hlp hcb h4⟩
  | ok df3 =>
    obtain ⟨rows1, hmap, hdf3⟩ := transformRange_ok_inv h4
    have h1 : getLoc (renameHeaders df) "type" = Except.ok ti := getLoc_eq_of_cols rfl hty
    have h2 : getLoc (dropnaDf (fillTypeCol (renameHeaders df) ti)) "last_price"
        = Except.ok p := getLoc_eq_of_cols rfl hlp
    have h3 : getLoc (dropnaDf (fillTypeCol (renameHeaders df) ti)) "cost_basis_per_share"
        = Except.ok cb := getLoc_eq_of_cols rfl hcb
    have h5 : getLoc df3 "quantity" = Except.error ("KeyError: " ++ "quantity") := by
      apply getLoc_error_of_none
      rw [hdf3]
      exact h
    exact ⟨"KeyError: " ++ "quantity", by simp only [clean_data, h1, h2, h3, h4, h5]⟩

lemma mem_selectedNames {cols : List String} {q cb : Nat} {c : String} :
    c ∈ selectedNames cols q cb ↔ c ∈ cols := by
  constructor
  · intro h
    simp only [selectedNames, List.mem_append] at h
    rcases h with (h | h) | h
    · exact List.drop_subset _ _ (List.take_subset _ _ h)
    · exact List.take_subset _ _ h
    · exact List.drop_subset _ _ h
  · intro h
    simp only [selectedNames, List.mem_append]
    rw [← List.take_append_drop q cols] at h
    rcases List.mem_append.mp h with h1 | h2
    · exact Or.inl (Or.inr h1)
    · rw [← List.take_append_drop (cb + 1 - q) (cols.drop q)] at h2
      rcases List.mem_append.mp h2 with h3 | h4
      · exact Or.inl (Or.inl h3)
      · rw [List.drop_drop] at h4
        by_cases hq : q ≤ cb + 1
        · rw [show q + (cb + 1 - q) = cb + 1 from by omega] at h4
          exact Or.inr h4
        · rw [show q + (cb + 1 - q) = q from by omega] at h4
          have hdd : List.drop (q - (cb + 1)) (List.drop (cb + 1) cols) = List.drop q cols := by
            rw [List.drop_drop]
            congr 1
            omega
          rw [← hdd] at h4
          exact Or.inr (List.drop_subset _ _ h4)

lemma reorderCols_rows_getD {df : DataFrame} {q cb i : Nat} (hi : i < df.rows.length) :
    (reorderCols df q cb).rows.getD i []
      = (selectedNames df.cols q cb).map (lookupCell df.cols (df.rows.getD i [])) := by
  show (df.rows.map fun r => (selectedNames df.cols q cb).map (lookupCell df.cols r)).getD i []
      = _
  exact getD_of_map _ [] [] hi

lemma colVal_reorder {cols : List String} {rows1 : List (List Cell)} {q cb i j : Nat}
    (hnd : cols.Nodup) (hj : j < cols.length) (hi : i < rows1.length) :
    colVal (reorderCols (DataFrame.mk cols rows1) q cb) i (cols.getD j "")
      = (rows1.getD i []).getD j Cell.na := by
  have hmem : cols.getD j "" ∈ selectedNames cols q cb :=
    mem_selectedNames.mpr (getD_mem hj)
  obtain ⟨k, hk⟩ := getLocAux_some_of_mem hmem
  have hklt : k < (selectedNames cols q cb).length := getLocAux_some_lt hk
  have hkname : (selectedNames cols q cb).getD k "" = cols.getD j "" := getLocAux_some_getD hk
  have hcols : (reorderCols (DataFrame.mk cols rows1) q cb).cols = selectedNames cols q cb := rfl
  have hrows : (reorderCols (DataFrame.mk cols rows1) q cb).rows.getD i []
      = (selectedNames cols q cb).map (lookupCell cols (rows1.getD i [])) :=
    @reorderCols_rows_getD (DataFrame.mk cols rows1) q cb i hi
  simp only [colVal, hcols, hrows, lookupCell, hk]
  rw [getD_of_map (lookupCell cols (rows1.getD i [])) Cell.na "" hklt, hkname]
  simp only [lookupCell, getLocAux_getD_of_nodup hnd hj]

lemma mem_of_getLocAux_some {name : String} {l : List String} {i : Nat}
    (h : getLocAux name l = some i) : name ∈ l := by
  by_contra hmem
  rw [(getLocAux_eq_none_iff name l).mpr hmem] at h
  cases h

lemma cellIsin_nil (c : Cell) : cellIsin c [] = false := by
  cases c <;> rfl

lemma cellIsin_congr {l1 l2 : List String} (hm : ∀ x, x ∈ l1 ↔ x ∈ l2) (c : Cell) :
    cellIsin c l1 = cellIsin c l2 := by
  cases c with
  | na => rfl
  | num q => rfl
  | str s =>
    simp only [cellIsin]
    rw [Bool.eq_iff_iff]
    constructor
    · intro h
      exact List.elem_iff.mpr ((hm s).mp (List.elem_iff.mp h))
    · intro h
      exact List.elem_iff.mpr ((hm s).mpr (List.elem_iff.mp h))

lemma filter_data_ok_inv {df : DataFrame} {accounts symbols : List String} {out : DataFrame}
    (h : filter_data df accounts symbols = Except.ok out) :
    ∃ ai si,
      getLocAux "account_name" df.cols = some ai ∧
      getLocAux "symbol" df.cols = some si ∧
      out = DataFrame.mk df.cols (df.rows.filter (keepRow ai si accounts symbols)) := by
  unfold filter_data at h
  split at h
  · exact Except.noConfusion h
  · rename_i ai h1
    split at h
    · exact Except.noConfusion h
    · rename_i si h2
      injection h with h3
      exact ⟨ai, si, (getLoc_ok_iff _ _ _).mp h1, (getLoc_ok_iff _ _ _).mp h2, h3.symm⟩

lemma filter_data_eq_ok {df : DataFrame} {accounts symbols : List String} {ai si : Nat}
    (hai : getLocAux "account_name" df.cols = some ai)
    (hsi : getLocAux "symbol" df.cols = some si) :
    filter_data df accounts symbols
      = Except.ok (DataFrame.mk df.cols (df.rows.filter (keepRow ai si accounts symbols))) := by
  have h1 : getLoc df "account_name" = Except.ok ai := getLoc_eq_of_cols rfl hai
  have h2 : getLoc df "symbol" = Except.ok si := getLoc_eq_of_cols rfl hsi
  simp only [filter_data, h1, h2]

lemma mem_uniqueAux {α : Type} [DecidableEq α] {x : α} :
    ∀ (seen l : List α), x ∈ l → x ∈ seen ∨ x ∈ uniqueAux seen l := by
  intro seen l
  induction l generalizing seen with
  | nil => intro h; cases h
  | cons a as ih =>
    intro h
    by_cases ha : a ∈ seen
    · rw [show uniqueAux seen (a :: as) = uniqueAux seen as from by simp [uniqueAux, ha]]
      rcases List.mem_cons.mp h with rfl | hx
      · exact Or.inl ha
      · exact ih seen hx
    · rw [show uniqueAux seen (a :: as) = a :: uniqueAux (a :: seen) as from by
        simp [uniqueAux, ha]]
      rcases List.mem_cons.mp h with rfl | hx
      · exact Or.inr (List.mem_cons_self _ _)
      · rcases ih (a :: seen) hx with hs | hu
        · rcases List.mem_cons.mp hs with rfl | hs2
          · exact Or.inr (List.mem_cons_self _ _)
          · exact Or.inl hs2
        · exact Or.inr (List.mem_cons_of_mem _ hu)

lemma mem_uniqueAux_nil {α : Type} [DecidableEq α] {x : α} {l : List α}
    (h : x ∈ l) : x ∈ uniqueAux [] l := by
  rcases mem_uniqueAux [] l h with hs | hu
  · cases hs
  · exact hu

lemma length_insertLe {α : Type} (le : α → α → Bool) (a : α) (l : List α) :
    (insertLe le a l).length = l.length + 1 := by
  induction l with
  | nil => rfl
  | cons b bs ih =>
    by_cases hle : le a b
    · simp [insertLe, hle]
    · simp [insertLe, hle, ih]

lemma length_sortLe {α : Type} (le : α → α → Bool) (l : List α) :
    (sortLe le l).length = l.length := by
  induction l with
  | nil => rfl
  | cons a as ih =>
    show (insertLe le a (sortLe le as)).length = as.length + 1
    rw [length_insertLe, ih]

lemma groupby_sum_eq {df : DataFrame} {ai : Nat}
    (hai : getLocAux "account_name" df.cols = some ai) :
    groupby_sum df = Except.ok (DataFrame.mk
      ("account_name" ::
        ((List.range df.cols.length).filter (fun j => decide (j ≠ ai))).map
          (fun j => df.cols.getD j ""))
      ((groupKeys df ai).map (fun k =>
        k :: ((List.range df.cols.length).filter (fun j => decide (j ≠ ai))).map
          (fun j => cellSum ((df.rows.filter (fun r => decide (r.getD ai Cell.na = k))).map
            (fun r => r.getD j Cell.na)))))) := by
  have h1 : getLoc df "account_name" = Except.ok ai := getLoc_eq_of_cols rfl hai
  simp only [groupby_sum, h1]


/-! ### Claim theorems -/

/-- C3: for every input dataset, the cleaned dataset's column headers are the
input headers lower-cased with every space and slash replaced by an
underscore (as a set of names; C4 fixes their order). -/
theorem spec_C3 (df df' : DataFrame) (h : clean_data df = Except.ok df') (c : String) :
    c ∈ df'.cols ↔ c ∈ df.cols.map normalizeHeader := by
  obtain ⟨ti, p, cb, q, rows1, _, _, _, _, _, hdf⟩ := clean_data_ok_inv h
  subst hdf
  exact mem_selectedNames

theorem spec_C3_witness :
    clean_data dfW = Except.ok cleanW ∧
      ("account_name" ∈ cleanW.cols ↔ "account_name" ∈ dfW.cols.map normalizeHeader) :=
  ⟨by decide, spec_C3 dfW cleanW (by decide) "account_name"⟩

/-- C4: the cleaned dataset's columns are reordered so that the contiguous
range from "quantity" (position `q` of the normalized headers) through
"cost_basis_per_share" (position `cb`) comes first, then the columns that
originally preceded "quantity" in order, then those that originally followed
"cost_basis_per_share" in order. -/
theorem spec_C4 (df df' : DataFrame) (q cb : Nat)
    (hq : getLocAux "quantity" (df.cols.map normalizeHeader) = some q)
    (hcb : getLocAux "cost_basis_per_share" (df.cols.map normalizeHeader) = some cb)
    (h : clean_data df = Except.ok df') :
    df'.cols
      = ((df.cols.map normalizeHeader).drop q).take (cb + 1 - q)
        ++ (df.cols.map normalizeHeader).take q
        ++ (df.cols.map normalizeHeader).drop (cb + 1) := by
  obtain ⟨ti, p, cb0, q0, rows1, _, _, hcb0, hq0, _, hdf⟩ := clean_data_ok_inv h
  have hq1 : q0 = q := Option.some.inj (hq0.symm.trans hq)
  have hcb1 : cb0 = cb := Option.some.inj (hcb0.symm.trans hcb)
  subst hq1
  subst hcb1
  subst hdf
  rfl

theorem spec_C4_witness :
    getLocAux "quantity" (dfW.cols.map normalizeHeader) = some 2 ∧
      getLocAux "cost_basis_per_share" (dfW.cols.map normalizeHeader) = some 5 ∧
      cleanW.cols
        = ((dfW.cols.map normalizeHeader).drop 2).take (5 + 1 - 2)
          ++ (dfW.cols.map normalizeHeader).take 2
          ++ (dfW.cols.map normalizeHeader).drop (5 + 1) :=
  ⟨by decide, by decide, spec_C4 dfW cleanW 2 5 (by decide) (by decide) (by decide)⟩

/-- C5: filtering returns exactly the rows whose account-name cell is in the
account selection and whose symbol cell is in the symbol selection, it
preserves the relative order of the input rows (sublist), and an empty
selection on either side yields an empty result. -/
theorem spec_C5 (df : DataFrame) (accounts symbols : List String) (ai si : Nat)
    (out : DataFrame)
    (hai : getLocAux "account_name" df.cols = some ai)
    (hsi : getLocAux "symbol" df.cols = some si)
    (h : filter_data df accounts symbols = Except.ok out) :
    (∀ r, r ∈ out.rows ↔
      r ∈ df.rows ∧ cellIsin (r.getD ai Cell.na) accounts = true
        ∧ cellIsin (r.getD si Cell.na) symbols = true) ∧
    List.Sublist out.rows df.rows ∧
    ((accounts = [] ∨ symbols = []) → out.rows = []) := by
  obtain ⟨ai0, si0, hai0, hsi0, hout⟩ := filter_data_ok_inv h
  have hae : ai0 = ai := Option.some.inj (hai0.symm.trans hai)
  subst hae
  have hse : si0 = si := Option.some.inj (hsi0.symm.trans hsi)
  subst hse
  subst hout
  refine ⟨?_, List.filter_sublist _, ?_⟩
  · intro r
    rw [List.mem_filter]
    simp [keepRow, Bool.and_eq_true]
  · intro hemp
    apply List.filter_eq_nil_iff.mpr
    intro a ha
    rcases hemp with rfl | rfl
    · simp [keepRow, cellIsin_nil]
    · simp [keepRow, cellIsin_nil]

theorem spec_C5_witness :
    filter_data cleanW ["Acct1"] ["AAPL", "MSFT"] = Except.ok cleanW ∧
      (cleanW.rows.getD 1 [] ∈ cleanW.rows ↔
        cleanW.rows.getD 1 [] ∈ cleanW.rows ∧
          cellIsin ((cleanW.rows.getD 1 []).getD 4 Cell.na) ["Acct1"] = true ∧
          cellIsin ((cleanW.rows.getD 1 []).getD 5 Cell.na) ["AAPL", "MSFT"] = true) :=
  ⟨by decide,
    (spec_C5 cleanW ["Acct1"] ["AAPL", "MSFT"] 4 5 cleanW (by decide) (by decide)
      (by decide)).1 _⟩

/-- C6: filtering is idempotent — filtering an already-filtered result with
the same selections returns it unchanged. -/
theorem spec_C6 (df : DataFrame) (accounts symbols : List String) (out : DataFrame)
    (h : filter_data df accounts symbols = Except.ok out) :
    filter_data out accounts symbols = Except.ok out := by
  obtain ⟨ai, si, hai, hsi, hout⟩ := filter_data_ok_inv h
  subst hout
  have hstep := @filter_data_eq_ok
    (DataFrame.mk df.cols (df.rows.filter (keepRow ai si accounts symbols)))
    accounts symbols ai si hai hsi
  rw [hstep]
  congr 2
  exact List.filter_eq_self.mpr (fun a ha => (List.mem_filter.mp ha).2)

theorem spec_C6_witness :
    filter_data cleanW ["Acct1"] ["AAPL"]
        = Except.ok (DataFrame.mk cleanW.cols [cleanW.rows.getD 0 []]) ∧
      filter_data (DataFrame.mk cleanW.cols [cleanW.rows.getD 0 []]) ["Acct1"] ["AAPL"]
        = Except.ok (DataFrame.mk cleanW.cols [cleanW.rows.getD 0 []]) :=
  ⟨by decide,
    spec_C6 cleanW ["Acct1"] ["AAPL"] (DataFrame.mk cleanW.cols [cleanW.rows.getD 0 []])
      (by decide)⟩

lemma asStr_isSome_iff (c : Cell) : c.asStr.isSome = true ↔ ∃ s, c = Cell.str s := by
  cases c <;> simp [Cell.asStr]

/-- C7: filtering a dataframe whose account and symbol columns hold strings,
with the selections being all distinct account names and all distinct
symbols, returns the full dataframe. -/
theorem spec_C7 (df : DataFrame) (ai si : Nat)
    (hai : getLocAux "account_name" df.cols = some ai)
    (hsi : getLocAux "symbol" df.cols = some si)
    (hacc : ∀ r ∈ df.rows, (r.getD ai Cell.na).asStr.isSome = true)
    (hsym : ∀ r ∈ df.rows, (r.getD si Cell.na).asStr.isSome = true) :
    filter_data df (uniqueStrs df ai) (uniqueStrs df si) = Except.ok df := by
  rw [filter_data_eq_ok hai hsi]
  congr 1
  conv_rhs => rw [show df = DataFrame.mk df.cols df.rows from rfl]
  congr 1
  apply List.filter_eq_self.mpr
  intro r hr
  obtain ⟨a, hA⟩ := (asStr_isSome_iff _).mp (hacc r hr)
  obtain ⟨b, hB⟩ := (asStr_isSome_iff _).mp (hsym r hr)
  have hmemA : a ∈ uniqueStrs df ai := by
    apply mem_uniqueAux_nil
    apply List.mem_filterMap.mpr
    refine ⟨Cell.str a, ?_, rfl⟩
    exact List.mem_map.mpr ⟨r, hr, hA⟩
  have hmemB : b ∈ uniqueStrs df si := by
    apply mem_uniqueAux_nil
    apply List.mem_filterMap.mpr
    refine ⟨Cell.str b, ?_, rfl⟩
    exact List.mem_map.mpr ⟨r, hr, hB⟩
  unfold keepRow
  rw [hA, hB]
  simp only [cellIsin, Bool.and_eq_true]
  exact ⟨List.elem_iff.mpr hmemA, List.elem_iff.mpr hmemB⟩

theorem spec_C7_witness :
    uniqueStrs cleanW 4 = ["Acct1"] ∧ uniqueStrs cleanW 5 = ["AAPL", "MSFT"] ∧
      filter_data cleanW (uniqueStrs cleanW 4) (uniqueStrs cleanW 5) = Except.ok cleanW :=
  ⟨by decide, by decide,
    spec_C7 cleanW 4 5 (by decide) (by decide) (by decide) (by decide)⟩

/-- C8: when any of the expected normalized column names "type",
"last_price", "cost_basis_per_share" or "quantity" is absent from the
headers, cleaning fails with a fatal error. -/
theorem spec_C8 (df : DataFrame)
    (h : "type" ∉ df.cols.map normalizeHeader
      ∨ "last_price" ∉ df.cols.map normalizeHeader
      ∨ "cost_basis_per_share" ∉ df.cols.map normalizeHeader
      ∨ "quantity" ∉ df.cols.map normalizeHeader) :
    ∃ e, clean_data df = Except.error e := by
  cases hty : getLocAux "type" (df.cols.map normalizeHeader) with
  | none => exact clean_data_error_no_type hty
  | some ti =>
    cases hlp : getLocAux "last_price" (df.cols.map normalizeHeader) with
    | none => exact clean_data_error_no_last_price hty hlp
    | some p =>
      cases hcb : getLocAux "cost_basis_per_share" (df.cols.map normalizeHeader) with
      | none => exact clean_data_error_no_cost_basis hty hlp hcb
      | some cb =>
        cases hq : getLocAux "quantity" (df.cols.map normalizeHeader) with
        | none => exact clean_data_error_no_quantity hty hlp hcb hq
        | some q =>
          exfalso
          rcases h with h | h | h | h
          · exact h (mem_of_getLocAux_some hty)
          · exact h (mem_of_getLocAux_some hlp)
          · exact h (mem_of_getLocAux_some hcb)
          · exact h (mem_of_getLocAux_some hq)

theorem spec_C8_witness :
    ("type" ∉ dfM.cols.map normalizeHeader
      ∨ "last_price" ∉ dfM.cols.map normalizeHeader
      ∨ "cost_basis_per_share" ∉ dfM.cols.map normalizeHeader
      ∨ "quantity" ∉ dfM.cols.map normalizeHeader) ∧
      ∃ e, clean_data dfM = Except.error e :=
  ⟨by decide, spec_C8 dfM (by decide)⟩

/-- C9: aggregation groups the rows by account-name cell and produces one
summary row per distinct account, each row holding the per-column group sums;
in particular two rows for account "A" with current values 100 and 50 yield
the single summary row ("A", 150). -/
theorem spec_C9 :
    (∀ df ai out, getLocAux "account_name" df.cols = some ai →
      groupby_sum df = Except.ok out →
      out.rows.length
          = (uniqueAux [] ((colCells df ai).filter (fun c => !c.isNa))).length ∧
        ∀ k ∈ groupKeys df ai,
          (k :: ((List.range df.cols.length).filter (fun j => decide (j ≠ ai))).map
            (fun j => cellSum ((df.rows.filter
              (fun r => decide (r.getD ai Cell.na = k))).map (fun r => r.getD j Cell.na))))
            ∈ out.rows) ∧
    groupby_sum dfG = Except.ok outG := by
  constructor
  · intro df ai out hai hok
    rw [groupby_sum_eq hai] at hok
    injection hok with hout
    subst hout
    constructor
    · show ((groupKeys df ai).map _).length = _
      rw [List.length_map, groupKeys, length_sortLe]
    · intro k hk
      exact List.mem_map.mpr ⟨k, hk, rfl⟩
  · decide

theorem spec_C9_witness :
    getLocAux "account_name" dfG.cols = some 0 ∧
      outG.rows.length
        = (uniqueAux [] ((colCells dfG 0).filter (fun c => !c.isNa))).length :=
  ⟨by decide, (spec_C9.1 dfG 0 outG (by decide) (by decide)).1⟩

/-- C10: the filter depends only on the membership of the two selection
lists — selections equal as sets (any order, any duplication) give
identical results. -/
theorem spec_C10 (df : DataFrame) (accounts1 accounts2 symbols1 symbols2 : List String)
    (ha : ∀ x, x ∈ accounts1 ↔ x ∈ accounts2)
    (hs : ∀ x, x ∈ symbols1 ↔ x ∈ symbols2) :
    filter_data df accounts1 symbols1 = filter_data df accounts2 symbols2 := by
  cases h1 : getLoc df "account_name" with
  | error e => simp only [filter_data, h1]
  | ok ai =>
    cases h2 : getLoc df "symbol" with
    | error e => simp only [filter_data, h1, h2]
    | ok si =>
      simp only [filter_data, h1, h2]
      have hfc : ∀ r ∈ df.rows,
          keepRow ai si accounts1 symbols1 r = keepRow ai si accounts2 symbols2 r := by
        intro r hr
        unfold keepRow
        rw [cellIsin_congr ha, cellIsin_congr hs]
      rw [List.filter_congr hfc]

theorem spec_C10_witness :
    filter_data cleanW ["Acct1", "Acct1"] ["MSFT", "AAPL"]
      = filter_data cleanW ["Acct1"] ["AAPL", "MSFT"] :=
  spec_C10 cleanW ["Acct1", "Acct1"] ["Acct1"] ["MSFT", "AAPL"] ["AAPL", "MSFT"]
    (by intro x; simp) (by intro x; simp [or_comm])

/-- C2: cleaning first replaces every missing "type" entry by the literal
string "unknown" (so a row missing only its type is retained), then drops
every row still missing a value in any column — such a row is absent from
the retained rows, and the cleaned output has exactly one row per retained
row. -/
theorem spec_C2 (df df' : DataFrame) (ti : Nat)
    (hty : getLocAux "type" (df.cols.map normalizeHeader) = some ti)
    (hwf : ∀ r ∈ df.rows, r.length = df.cols.length)
    (h : clean_data df = Except.ok df') :
    (∀ r ∈ df.rows, (setTypeRow ti r).getD ti Cell.na
        = (if (r.getD ti Cell.na).isNa then Cell.str "unknown" else r.getD ti Cell.na)) ∧
    (∀ r ∈ df.rows, ∀ j, j < df.cols.length → j ≠ ti → (r.getD j Cell.na).isNa = true →
      setTypeRow ti r ∉
        (df.rows.map (setTypeRow ti)).filter (fun r => r.all (fun c => !c.isNa))) ∧
    df'.rows.length
      = ((df.rows.map (setTypeRow ti)).filter (fun r => r.all (fun c => !c.isNa))).length := by
  obtain ⟨ti0, p, cb, q, rows1, hty0, hlp0, hcb0, hq0, hmap, hdf⟩ := clean_data_ok_inv h
  have hte : ti0 = ti := Option.some.inj (hty0.symm.trans hty)
  rw [hte] at hmap
  refine ⟨?_, ?_, ?_⟩
  · intro r hr
    have hlt : ti < r.length := by
      have h1 : ti < (df.cols.map normalizeHeader).length := getLocAux_some_lt hty
      rw [List.length_map] at h1
      rw [hwf r hr]
      exact h1
    rw [setTypeRow_getD_eq hlt, fillCell_eq_ite]
  · intro r hr j hj hne hna hmem
    have hall := (List.mem_filter.mp hmem).2
    have hljr : j < (setTypeRow ti r).length := by
      rw [setTypeRow_length, hwf r hr]
      exact hj
    have hcell := List.all_eq_true.mp hall ((setTypeRow ti r).getD j Cell.na) (getD_mem hljr)
    rw [setTypeRow_getD_ne r hne, hna] at hcell
    simp at hcell
  · subst hdf
    have hlen : (reorderCols (DataFrame.mk (df.cols.map normalizeHeader) rows1) q cb).rows.length
        = rows1.length := by
      simp [reorderCols]
    rw [hlen, mapExc_ok_length hmap]

theorem spec_C2_witness :
    clean_data dfW = Except.ok cleanW ∧
      cleanW.rows.length
        = ((dfW.rows.map (setTypeRow 6)).filter (fun r => r.all (fun c => !c.isNa))).length :=
  ⟨by decide, (spec_C2 dfW cleanW 6 (by decide) (by decide) (by decide)).2.2⟩

/-- C1: for rows fully populated after type-defaulting, cleaning maps each
cell in the header range from "last_price" through "cost_basis_per_share"
to the float value of the original string with every "$" and "%" removed
(found in the cleaned frame under the same column name); and when such a
cell does not parse as a number after symbol-stripping, cleaning fails with
a fatal error instead of coercing to zero. -/
theorem spec_C1 :
    (∀ df df' ti p cb i j s,
      getLocAux "type" (df.cols.map normalizeHeader) = some ti →
      getLocAux "last_price" (df.cols.map normalizeHeader) = some p →
      getLocAux "cost_basis_per_share" (df.cols.map normalizeHeader) = some cb →
      (df.cols.map normalizeHeader).Nodup →
      (∀ r ∈ df.rows, ((setTypeRow ti r).all (fun c => !c.isNa)) = true) →
      i < df.rows.length → p ≤ j → j ≤ cb →
      (setTypeRow ti (df.rows.getD i [])).getD j Cell.na = Cell.str s →
      clean_data df = Except.ok df' →
      ∃ v, parseFloat (stripSymbols s) = some v ∧
        colVal df' i ((df.cols.map normalizeHeader).getD j "") = Cell.num v) ∧
    (∀ df ti p cb i j s,
      getLocAux "type" (df.cols.map normalizeHeader) = some ti →
      getLocAux "last_price" (df.cols.map normalizeHeader) = some p →
      getLocAux "cost_basis_per_share" (df.cols.map normalizeHeader) = some cb →
      (∀ r ∈ df.rows, ((setTypeRow ti r).all (fun c => !c.isNa)) = true) →
      i < df.rows.length → p ≤ j → j ≤ cb →
      (setTypeRow ti (df.rows.getD i [])).getD j Cell.na = Cell.str s →
      parseFloat (stripSymbols s) = none →
      ∃ e, clean_data df = Except.error e) := by
  constructor
  · intro df df' ti p cb i j s hty hlp hcb hnd hfill hi hp hj hs hclean
    obtain ⟨ti0, p0, cb0, q, rows1, hty0, hlp0, hcb0, hq0, hmap, hdf⟩ :=
      clean_data_ok_inv hclean
    have hte : ti0 = ti := Option.some.inj (hty0.symm.trans hty)
    have hpe : p0 = p := Option.some.inj (hlp0.symm.trans hlp)
    have hcbe : cb0 = cb := Option.some.inj (hcb0.symm.trans hcb)
    rw [hte, hpe, hcbe] at hmap
    rw [hcbe] at hdf
    have hfilter : (df.rows.map (setTypeRow ti)).filter (fun r => r.all (fun c => !c.isNa))
        = df.rows.map (setTypeRow ti) := by
      apply List.filter_eq_self.mpr
      intro a ha
      obtain ⟨r, hr, rfl⟩ := List.mem_map.mp ha
      exact hfill r hr
    rw [hfilter] at hmap
    have hlen1 : rows1.length = df.rows.length := by
      rw [mapExc_ok_length hmap, List.length_map]
    have hrow := mapExc_ok_getD hmap i (by rw [List.length_map]; exact hi)
    rw [getD_of_map (setTypeRow ti) [] [] hi] at hrow
    have hjr : j < (setTypeRow ti (df.rows.getD i [])).length := by
      apply lt_length_of_getD_ne
      rw [hs]
      exact fun hcon => Cell.noConfusion hcon
    have hcellt := transformRow_ok_getD hrow j hjr
    rw [if_pos ⟨by omega, by omega⟩, hs] at hcellt
    cases hpf : parseFloat (stripSymbols s) with
    | none =>
      rw [show transformCell (Cell.str s)
          = Except.error ("ValueError: could not convert string to float: " ++ s) from by
        simp [transformCell, hpf]] at hcellt
      exact Except.noConfusion hcellt
    | some v =>
      refine ⟨v, rfl, ?_⟩
      rw [show transformCell (Cell.str s) = Except.ok (Cell.num v) from by
        simp [transformCell, hpf]] at hcellt
      injection hcellt with hcv
      subst hdf
      have hjlt : j < (df.cols.map normalizeHeader).length :=
        lt_of_le_of_lt hj (getLocAux_some_lt hcb)
      have hirows : i < rows1.length := by
        rw [hlen1]
        exact hi
      rw [colVal_reorder hnd hjlt hirows]
      exact hcv.symm
  · intro df ti p cb i j s hty hlp hcb hfill hi hp hj hs hpf
    have hfilter : (df.rows.map (setTypeRow ti)).filter (fun r => r.all (fun c => !c.isNa))
        = df.rows.map (setTypeRow ti) := by
      apply List.filter_eq_self.mpr
      intro a ha
      obtain ⟨r, hr, rfl⟩ := List.mem_map.mp ha
      exact hfill r hr
    have hjr : j < (setTypeRow ti (df.rows.getD i [])).length := by
      apply lt_length_of_getD_ne
      rw [hs]
      exact fun hcon => Cell.noConfusion hcon
    have hce : transformCell ((setTypeRow ti (df.rows.getD i [])).getD j Cell.na)
        = Except.error ("ValueError: could not convert string to float: " ++ s) := by
      rw [hs]
      simp [transformCell, hpf]
    obtain ⟨e2, hre⟩ := transformRow_error_of_cell hjr (show p ≤ 0 + j by omega)
      (show 0 + j ≤ cb by omega) hce
    obtain ⟨e3, hmape⟩ := mapExc_error_of_getD
      (show i < (df.rows.map (setTypeRow ti)).length by rw [List.length_map]; exact hi)
      (by rw [getD_of_map (setTypeRow ti) [] [] hi]; exact hre)
    have hfrows : (dropnaDf (fillTypeCol (renameHeaders df) ti)).rows
        = df.rows.map (setTypeRow ti) := hfilter
    have htr : transformRange (dropnaDf (fillTypeCol (renameHeaders df) ti)) p cb
        = Except.error e3 := by
      simp only [transformRange, hfrows, hmape]
    exact ⟨e3, clean_data_error_transform hty hlp hcb htr⟩

theorem spec_C1_witness :
    (∃ v, parseFloat (stripSymbols "12.5%") = some v ∧
      colVal cleanW 1 ((dfW1.cols.map normalizeHeader).getD 3 "") = Cell.num v) ∧
    (∃ e, clean_data dfBad = Except.error e) :=
  ⟨spec_C1.1 dfW1 cleanW 6 3 5 1 3 "12.5%" (by decide) (by decide) (by decide) (by decide)
      (by decide) (by decide) (by decide) (by decide) (by decide) (by decide),
    spec_C1.2 dfBad 6 3 5 0 3 "n/a" (by decide) (by decide) (by decide) (by decide)
      (by decide) (by decide) (by decide) (by decide) (by decide)⟩
